import Mathlib

/-!
Verification development for the PotatOS console driver
(`src/kernel/console.c`): a shallow embedding of the keyboard scancode
decoder, the circular console input buffer, the serial/parallel transmit
routines and the CGA display probe, together with theorems settling the
behavioural claims about them.

Hardware reads are modelled as explicit parameters (the values the
`inb` calls return, in order) and hardware writes as explicit result
lists of `(port, value)` pairs.  Machine integers are modelled as `Nat`
with explicit `% 2^w` reductions where the C code truncates.
-/

namespace PotatOS

/-! ### Modifier bits and key codes -/

/-- `SHIFT` modifier bit (`1<<0`). -/
def SHIFT : Nat := 1

/-- `CTL` modifier bit (`1<<1`). -/
def CTL : Nat := 2

/-- `ALT` modifier bit (`1<<2`). -/
def ALT : Nat := 4

/-- `CAPSLOCK` toggle bit (`1<<3`). -/
def CAPSLOCK : Nat := 8

/-- `NUMLOCK` toggle bit (`1<<4`). -/
def NUMLOCK : Nat := 16

/-- `SCROLLLOCK` toggle bit (`1<<5`). -/
def SCROLLLOCK : Nat := 32

/-- `E0ESC` pending-extended-scancode bit (`1<<6`). -/
def E0ESC : Nat := 64

/-- Modelled from the spec: the `KEY_*` special key codes come from
`kernel/console.h`, which is outside the excerpt.  The spec only
requires that each special key (arrows, Home/End/PageUp/PageDown/
Insert/Delete) has a logical key code distinct from the `0`
"no mapping" sentinel and from the printable characters, so the
conventional non-ASCII values `0xE0..0xE9` are used. -/
def KEY_HOME : Nat := 0xE0

/-- Modelled from the spec: `End` key code (see `KEY_HOME`). -/
def KEY_END : Nat := 0xE1

/-- Modelled from the spec: `Up` arrow key code (see `KEY_HOME`). -/
def KEY_UP : Nat := 0xE2

/-- Modelled from the spec: `Down` arrow key code (see `KEY_HOME`). -/
def KEY_DN : Nat := 0xE3

/-- Modelled from the spec: `Left` arrow key code (see `KEY_HOME`). -/
def KEY_LF : Nat := 0xE4

/-- Modelled from the spec: `Right` arrow key code (see `KEY_HOME`). -/
def KEY_RT : Nat := 0xE5

/-- Modelled from the spec: `PageUp` key code (see `KEY_HOME`). -/
def KEY_PGUP : Nat := 0xE6

/-- Modelled from the spec: `PageDown` key code (see `KEY_HOME`). -/
def KEY_PGDN : Nat := 0xE7

/-- Modelled from the spec: `Insert` key code (see `KEY_HOME`). -/
def KEY_INS : Nat := 0xE8

/-- Modelled from the spec: `Delete` key code (see `KEY_HOME`). -/
def KEY_DEL : Nat := 0xE9

/-! ### Scancode tables (`shiftcode`, `togglecode`, `normalmap`,
`shiftmap`, `ctlmap`, `charcode`) -/

/-- `shiftcode[256]`: momentary-modifier bit mapped to a scancode. -/
def shiftcode (i : Nat) : Nat :=
  if i = 0x1D then CTL
  else if i = 0x2A then SHIFT
  else if i = 0x36 then SHIFT
  else if i = 0x38 then ALT
  else if i = 0x9D then CTL
  else if i = 0xB8 then ALT
  else 0

/-- `togglecode[256]`: toggle bit mapped to a scancode. -/
def togglecode (i : Nat) : Nat :=
  if i = 0x3A then CAPSLOCK
  else if i = 0x45 then NUMLOCK
  else if i = 0x46 then SCROLLLOCK
  else 0

/-- Positional initialisers of `normalmap` (indices `0x00`–`0x57`);
ASCII codes written numerically (`0x71 = q`, …). -/
def normalBase : List Nat :=
  [0,    0x1B, 0x31, 0x32, 0x33, 0x34, 0x35, 0x36,
   0x37, 0x38, 0x39, 0x30, 0x2D, 0x3D, 8,    9,
   0x71, 0x77, 0x65, 0x72, 0x74, 0x79, 0x75, 0x69,
   0x6F, 0x70, 0x5B, 0x5D, 10,   0,    0x61, 0x73,
   0x64, 0x66, 0x67, 0x68, 0x6A, 0x6B, 0x6C, 0x3B,
   0x27, 0x60, 0,    0x5C, 0x7A, 0x78, 0x63, 0x76,
   0x62, 0x6E, 0x6D, 0x2C, 0x2E, 0x2F, 0,    0x2A,
   0,    0x20, 0,    0,    0,    0,    0,    0,
   0,    0,    0,    0,    0,    0,    0,    0x37,
   0x38, 0x39, 0x2D, 0x34, 0x35, 0x36, 0x2B, 0x31,
   0x32, 0x33, 0x30, 0x2E, 0,    0,    0,    0]

/-- `normalmap[256]`: the unshifted table, positional entries plus the
designated extended-scancode entries; unset entries are `0`. -/
def normalmap (i : Nat) : Nat :=
  if i = 0x9C then 10
  else if i = 0xB5 then 0x2F
  else if i = 0xC7 then KEY_HOME
  else if i = 0xC8 then KEY_UP
  else if i = 0xC9 then KEY_PGUP
  else if i = 0xCB then KEY_LF
  else if i = 0xCD then KEY_RT
  else if i = 0xCF then KEY_END
  else if i = 0xD0 then KEY_DN
  else if i = 0xD1 then KEY_PGDN
  else if i = 0xD2 then KEY_INS
  else if i = 0xD3 then KEY_DEL
  else normalBase.getD i 0

/-- Positional initialisers of `shiftmap` (indices `0x00`–`0x57`). -/
def shiftBase : List Nat :=
  [0,    27,   0x21, 0x40, 0x23, 0x24, 0x25, 0x5E,
   0x26, 0x2A, 0x28, 0x29, 0x5F, 0x2B, 8,    9,
   0x51, 0x57, 0x45, 0x52, 0x54, 0x59, 0x55, 0x49,
   0x4F, 0x50, 0x7B, 0x7D, 10,   0,    0x41, 0x53,
   0x44, 0x46, 0x47, 0x48, 0x4A, 0x4B, 0x4C, 0x3A,
   0x22, 0x7E, 0,    0x7C, 0x5A, 0x58, 0x43, 0x56,
   0x42, 0x4E, 0x4D, 0x3C, 0x3E, 0x3F, 0,    0x2A,
   0,    0x20, 0,    0,    0,    0,    0,    0,
   0,    0,    0,    0,    0,    0,    0,    0x37,
   0x38, 0x39, 0x2D, 0x34, 0x35, 0x36, 0x2B, 0x31,
   0x32, 0x33, 0x30, 0x2E, 0,    0,    0,    0]

/-- `shiftmap[256]`: the shifted table. -/
def shiftmap (i : Nat) : Nat :=
  if i = 0x9C then 10
  else if i = 0xB5 then 0x2F
  else if i = 0xC7 then KEY_HOME
  else if i = 0xC8 then KEY_UP
  else if i = 0xC9 then KEY_PGUP
  else if i = 0xCB then KEY_LF
  else if i = 0xCD then KEY_RT
  else if i = 0xCF then KEY_END
  else if i = 0xD0 then KEY_DN
  else if i = 0xD1 then KEY_PGDN
  else if i = 0xD2 then KEY_INS
  else if i = 0xD3 then KEY_DEL
  else shiftBase.getD i 0

/-- Positional initialisers of `ctlmap` (indices `0x00`–`0x37`),
`C(x) = x - 0x40` truncated to `uint8_t`; in particular the entry for
scancode `0x35` is `C(0x2F) = (0x2F - 0x40) mod 256 = 0xEF`. -/
def ctlBase : List Nat :=
  [0,    0,    0,    0,    0,    0,    0,    0,
   0,    0,    0,    0,    0,    0,    0,    0,
   0x11, 0x17, 0x05, 0x12, 0x14, 0x19, 0x15, 0x09,
   0x0F, 0x10, 0,    0,    13,   0,    0x01, 0x13,
   0x04, 0x06, 0x07, 0x08, 0x0A, 0x0B, 0x0C, 0,
   0,    0,    0,    0x1C, 0x1A, 0x18, 0x03, 0x16,
   0x02, 0x0E, 0x0D, 0,    0,    0xEF, 0,    0]

/-- `ctlmap[256]`: the control table (note the `0x97` designated home
entry, unlike the other two tables). -/
def ctlmap (i : Nat) : Nat :=
  if i = 0x97 then KEY_HOME
  else if i = 0xB5 then 0xEF
  else if i = 0xC8 then KEY_UP
  else if i = 0xC9 then KEY_PGUP
  else if i = 0xCB then KEY_LF
  else if i = 0xCD then KEY_RT
  else if i = 0xCF then KEY_END
  else if i = 0xD0 then KEY_DN
  else if i = 0xD1 then KEY_PGDN
  else if i = 0xD2 then KEY_INS
  else if i = 0xD3 then KEY_DEL
  else ctlBase.getD i 0

/-- `charcode[4] = { normalmap, shiftmap, ctlmap, ctlmap }`, indexed by
`shift & (CTL | SHIFT)`. -/
def charcode (i : Nat) : Nat → Nat :=
  match i with
  | 0 => normalmap
  | 1 => shiftmap
  | 2 => ctlmap
  | _ => ctlmap

/-! ### Keyboard scancode decoder (`kbd_proc_data`) -/

/-- `x & ~m` on a 32-bit quantity (the decoder state `shift` is a
`uint32_t`). -/
def clear32 (x m : Nat) : Nat := x &&& (0xFFFFFFFF ^^^ m)

/-- Result of one `kbd_proc_data` call on an available data byte:
the new `shift` state, the `int` return value (`0..255`; the data-absent
`-1` branch is modelled by not calling the decoder), and the port
writes performed (`outb` calls, as `(port, value)` pairs). -/
structure KbdOut where
  shift : Nat
  ret : Nat
  writes : List (Nat × Nat)
  deriving Repr, DecidableEq

/-- `kbd_proc_data`, given the current `shift` state and the data byte
read from `KBDATAP`.  Mirrors the source branch for branch:
`0xE0` prefix, key release, extended-prefix fixup, modifier update,
table lookup, CapsLock case swap, and the Ctrl+Alt+Del reset `outb`. -/
def kbd_proc_data (shift data : Nat) : KbdOut :=
  if data = 0xE0 then
    { shift := shift ||| E0ESC, ret := 0, writes := [] }
  else if data &&& 0x80 ≠ 0 then
    let d := if shift &&& E0ESC ≠ 0 then data else data &&& 0x7F
    { shift := clear32 shift (shiftcode d ||| E0ESC), ret := 0, writes := [] }
  else
    let d := if shift &&& E0ESC ≠ 0 then data ||| 0x80 else data
    let shift1 := if shift &&& E0ESC ≠ 0 then clear32 shift E0ESC else shift
    let shift2 := (shift1 ||| shiftcode d) ^^^ togglecode d
    let c0 := charcode (shift2 &&& (CTL ||| SHIFT)) d
    let c :=
      if shift2 &&& CAPSLOCK ≠ 0 then
        if 0x61 ≤ c0 ∧ c0 ≤ 0x7A then c0 - 32
        else if 0x41 ≤ c0 ∧ c0 ≤ 0x5A then c0 + 32
        else c0
      else c0
    let ws := if shift2 &&& (CTL ||| ALT) = CTL ||| ALT ∧ c = KEY_DEL
              then [(0x92, 0x3)] else []
    { shift := shift2, ret := c, writes := ws }

/-! ### Console ring buffer (`cons`, `cons_intr`, `cons_getc`) -/

/-- `CONSBUFSIZE`. -/
def CONSBUFSIZE : Nat := 512

/-- The console input buffer: `uint8_t buf[512]` (as a function from
index to byte) plus the two cursors. -/
structure ConsState where
  buf : Nat → Nat
  rpos : Nat
  wpos : Nat

/-- The zero-initialised `cons` singleton. -/
def cons0 : ConsState := { buf := fun _ => 0, rpos := 0, wpos := 0 }

/-- One iteration of the `cons_intr` loop body on a produced value
`c ≠ -1`: skip `c == 0`, otherwise store the low byte at `wpos`,
post-increment and wrap at `CONSBUFSIZE`.  There is deliberately no
fullness check (lossy overwrite policy). -/
def cons_intr_step (t : ConsState) (c : Nat) : ConsState :=
  if c = 0 then t
  else
    { buf := fun j => if j = t.wpos then c % 256 else t.buf j,
      rpos := t.rpos,
      wpos := if t.wpos + 1 = CONSBUFSIZE then 0 else t.wpos + 1 }

/-- `cons_intr(proc)`: the successive non-`-1` values produced by
`proc` are given as the list `l`, consumed in order. -/
def cons_intr (s : ConsState) (l : List Nat) : ConsState :=
  l.foldl cons_intr_step s

/-- `serial_intr`: drains the serial source only when
`serial_exists`. -/
def serial_intr (serialEx : Bool) (serialData : List Nat) (s : ConsState) :
    ConsState :=
  if serialEx then cons_intr s serialData else s

/-- `kbd_intr`: drains the keyboard source unconditionally.  (The
source spells the callee `console_intr`; the only such routine in the
file is `cons_intr` — treated as a literal naming defect, like the
`serial_init` missing terminator the spec flags.) -/
def kbd_intr (kbdData : List Nat) (s : ConsState) : ConsState :=
  cons_intr s kbdData

/-- `cons_getc`: poll both sources (the pending device data is passed
explicitly), then pop the next unread byte, or return `-1` when
`rpos == wpos`. -/
def cons_getc (serialEx : Bool) (serialData kbdData : List Nat)
    (s : ConsState) : Int × ConsState :=
  let s2 := kbd_intr kbdData (serial_intr serialEx serialData s)
  if s2.rpos ≠ s2.wpos then
    (Int.ofNat (s2.buf s2.rpos),
     { s2 with rpos := if s2.rpos + 1 = CONSBUFSIZE then 0 else s2.rpos + 1 })
  else
    (-1, s2)

/-- Repeated `cons_getc` with no pending device input: the sequence of
values returned by `n` successive pops. -/
def popList (s : ConsState) : Nat → List Int
  | 0 => []
  | n + 1 =>
    let r := cons_getc false [] [] s
    r.1 :: popList r.2 n

/-- `getchar`: `while ((c = cons_getc()) == 0) {}; return c;`.
`inp k` is the device data pending at the `k`-th poll; `fuel` bounds
the number of loop iterations we unfold (the C loop is unbounded). -/
def getchar (inp : Nat → List Nat × List Nat) (ex : Bool) :
    Nat → Nat → ConsState → Option (Int × ConsState)
  | _, 0, _ => none
  | k, fuel + 1, s =>
    let r := cons_getc ex (inp k).1 (inp k).2 s
    if r.1 = 0 then getchar inp ex (k + 1) fuel r.2 else some r

/-! ### Serial and parallel devices -/

/-- The bounded busy-wait of `serial_putc`/`lpt_putc`:
`for (i = 0; !(inb(status) & bit) && i < budget; ++i) delay();`.
`status k` is the value of the `k`-th status-register read; the result
is the final `i`, i.e. the number of `delay()` iterations executed. -/
def spinWait (status : Nat → Nat) (bit : Nat) : Nat → Nat → Nat
  | i, 0 => i
  | i, fuel + 1 =>
    if status i &&& bit = 0 then spinWait status bit (i + 1) fuel else i

/-- `serial_putc(c)`: spin on `COM_LSR_TXRDY` (`0x20`) for at most
12800 iterations, then write the byte to `COM1+COM_TX` (`0x3F8`)
unconditionally.  Result: (delay iterations, port writes). -/
def serial_putc (status : Nat → Nat) (c : Nat) : Nat × List (Nat × Nat) :=
  (spinWait status 0x20 0 12800, [(0x3F8, c % 256)])

/-- `lpt_putc(c)`: spin on status bit `0x80` for at most 12800
iterations, write the data byte to `0x378`, then pulse the control
register (`0x37A`) with `0x08|0x04|0x01` followed by `0x08`. -/
def lpt_putc (status : Nat → Nat) (c : Nat) : Nat × List (Nat × Nat) :=
  (spinWait status 0x80 0 12800,
   [(0x378, c % 256), (0x37A, 0x08 ||| 0x04 ||| 0x01), (0x37A, 0x08)])

/-- `serial_init`: the configuration `outb` sequence, and the latched
`serial_exists = (inb(COM1+COM_LSR) != 0xff)` computed from the given
line-status read.  (The source's missing statement terminator on the
`serial_exists` assignment is a literal source defect the spec says
not to reproduce; the assignment's evident value is modelled.) -/
def serial_init (lsr : Nat) : Bool × List (Nat × Nat) :=
  (lsr != 0xFF,
   [(0x3FA, 0), (0x3FB, 0x80), (0x3F8, 115200 / 9600), (0x3F9, 0),
    (0x3FB, 0x03 &&& (0xFF ^^^ 0x80)), (0x3FC, 0), (0x3F9, 0x01)])

/-! ### CGA display probe (`cga_init`) -/

/-- Modelled from the spec: `KERNBASE` comes from `inc/memlayout.h`,
outside the excerpt; a representative PC kernel base is used (its value
is irrelevant to the claims, only that the two windows differ). -/
def KERNBASE : Nat := 0xF0000000

/-- Modelled from the spec: colour display window offset
(`CGA_BUFF`), from the missing memory-layout header. -/
def CGA_BUFF : Nat := 0xB8000

/-- Modelled from the spec: monochrome display window offset
(`MONO_BUFF`), from the missing memory-layout header. -/
def MONO_BUFF : Nat := 0xB0000

/-- Modelled from the spec: colour display controller index port
(`CGA_BASE`), from the missing header. -/
def CGA_BASE : Nat := 0x3D4

/-- Result of `cga_init`: the stores to display memory performed by
the probe, in order, as `(address, value)` pairs, plus the selected
controller address, buffer window and cursor position. -/
structure CgaResult where
  memWrites : List (Nat × Nat)
  addr_6845 : Nat
  crt_buf : Nat
  crt_pos : Nat
  deriving Repr, DecidableEq

/-- `cga_init`, given the word initially read from the colour-window
probe cell (`was`), the value the probe cell yields when read back
after the `0xA55A` store (`readback`), and the two cursor-register
reads.  In the colour branch the original word is stored back; in the
monochrome branch no further display-memory store happens (and the
source assigns `addr_6845 = MONO_BUFF`, not a controller port —
modelled verbatim). -/
def cga_init (was readback curHi curLo : Nat) : CgaResult :=
  if readback ≠ 0xA55A then
    { memWrites := [(KERNBASE + CGA_BUFF, 0xA55A)],
      addr_6845 := MONO_BUFF,
      crt_buf := KERNBASE + MONO_BUFF,
      crt_pos := ((curHi % 256) <<< 8) ||| (curLo % 256) }
  else
    { memWrites := [(KERNBASE + CGA_BUFF, 0xA55A), (KERNBASE + CGA_BUFF, was)],
      addr_6845 := CGA_BASE,
      crt_buf := KERNBASE + CGA_BUFF,
      crt_pos := ((curHi % 256) <<< 8) ||| (curLo % 256) }

/-- Final contents of the memory word at `addr` after a write
sequence, starting from `init`. -/
def lastWriteTo (addr init : Nat) (ws : List (Nat × Nat)) : Nat :=
  ws.foldl (fun v w => if w.1 = addr then w.2 else v) init

/-! ### Queue abstraction and reachable-state invariant -/

/-- `s` represents the pending-byte queue `q`: the cursors are in
range, the queue fits strictly below capacity, the write cursor is the
read cursor advanced by the queue length, and the buffer holds the
queue's bytes in order starting at `rpos`. -/
def ConsRepr (s : ConsState) (q : List Nat) : Prop :=
  s.rpos < 512 ∧ s.wpos < 512 ∧ q.length < 512 ∧
  s.wpos = (s.rpos + q.length) % 512 ∧
  ∀ i, i < q.length → some (s.buf ((s.rpos + i) % 512)) = q[i]?

/-- Invariant of reachable buffer states: cursors in range and every
byte in the unread (circular) region `[rpos, wpos)` nonzero. -/
def GoodState (s : ConsState) : Prop :=
  s.rpos < 512 ∧ s.wpos < 512 ∧
  ∀ i, i < 512 →
    (i + 512 - s.rpos) % 512 < (s.wpos + 512 - s.rpos) % 512 →
    s.buf i ≠ 0

/-- An observable console operation: an interrupt-driven drain with
the given produced values, or a consumer pop. -/
inductive ConsOp where
  | intr (l : List Nat)
  | getc

/-- Run a sequence of console operations. -/
def runOps : ConsState → List ConsOp → ConsState
  | s, [] => s
  | s, ConsOp.intr l :: rest => runOps (cons_intr s l) rest
  | s, ConsOp.getc :: rest => runOps (cons_getc false [] [] s).2 rest

/-- All drained values in the operation list are bytes
(`inb`/decoder results are at most `0xFF`). -/
def opsOK : List ConsOp → Bool
  | [] => true
  | ConsOp.intr l :: rest => l.all (fun c => decide (c < 256)) && opsOK rest
  | ConsOp.getc :: rest => opsOK rest

end PotatOS

namespace PotatOS

set_option maxRecDepth 8000
set_option maxHeartbeats 3200000

/-! ## Helper lemmas about the spin loops -/

/-- The busy-wait executes at most `fuel` delay iterations beyond its
starting index. -/
theorem spinWait_le (status : Nat → Nat) (bit : Nat) :
    ∀ (fuel i : Nat), spinWait status bit i fuel ≤ i + fuel := by
  intro fuel
  induction fuel with
  | zero => intro i; simp [spinWait]
  | succ n ih =>
    intro i
    simp only [spinWait]
    split
    · exact le_trans (ih (i + 1)) (by omega)
    · omega

/-! ## Helper lemmas about the ring buffer -/

theorem cons_intr_nil (s : ConsState) : cons_intr s [] = s := rfl

theorem cons_intr_cons (s : ConsState) (c : Nat) (l : List Nat) :
    cons_intr s (c :: l) = cons_intr (cons_intr_step s c) l := rfl

theorem cons_intr_append (s : ConsState) (l1 l2 : List Nat) :
    cons_intr s (l1 ++ l2) = cons_intr (cons_intr s l1) l2 :=
  List.foldl_append cons_intr_step s l1 l2

theorem cons_intr_step_rpos (s : ConsState) (c : Nat) :
    (cons_intr_step s c).rpos = s.rpos := by
  unfold cons_intr_step; split <;> rfl

/-- Draining never moves the read cursor. -/
theorem cons_intr_rpos (l : List Nat) :
    ∀ s : ConsState, (cons_intr s l).rpos = s.rpos := by
  induction l with
  | nil => intro s; rfl
  | cons c l ih =>
    intro s
    rw [cons_intr_cons, ih, cons_intr_step_rpos]

theorem cons_intr_step_wpos (s : ConsState) (c : Nat) (hw : s.wpos < 512)
    (hc : c ≠ 0) : (cons_intr_step s c).wpos = (s.wpos + 1) % 512 := by
  unfold cons_intr_step
  rw [if_neg hc]
  show (if s.wpos + 1 = CONSBUFSIZE then 0 else s.wpos + 1) = (s.wpos + 1) % 512
  unfold CONSBUFSIZE
  split <;> omega

/-- Draining nonzero values advances the write cursor by the number of
values, modulo the capacity. -/
theorem cons_intr_wpos (l : List Nat) :
    ∀ s : ConsState, s.wpos < 512 → (∀ c ∈ l, c ≠ 0) →
    (cons_intr s l).wpos = (s.wpos + l.length) % 512 := by
  induction l with
  | nil =>
    intro s hw _
    rw [cons_intr_nil, List.length_nil]
    omega
  | cons c l ih =>
    intro s hw hc
    have hstep := cons_intr_step_wpos s c hw (hc c (List.mem_cons_self c l))
    rw [cons_intr_cons, ih _ (by rw [hstep]; omega)
        (fun x hx => hc x (List.mem_cons_of_mem c hx)), hstep,
        List.length_cons]
    omega

/-- A poll with no pending device data and `rpos == wpos` returns `-1`
and leaves the state unchanged. -/
theorem cons_getc_quiet_empty (s : ConsState) (h : s.rpos = s.wpos) :
    cons_getc false [] [] s = (-1, s) := by
  simp only [cons_getc, kbd_intr, serial_intr, Bool.false_eq_true, ite_false,
    cons_intr, List.foldl_nil, ne_eq, h, not_true_eq_false]

/-- A poll with no pending device data and a nonempty buffer pops the
byte at `rpos`. -/
theorem cons_getc_quiet_pop (s : ConsState) (h : s.rpos ≠ s.wpos) :
    cons_getc false [] [] s =
      (Int.ofNat (s.buf s.rpos),
       { s with rpos := if s.rpos + 1 = CONSBUFSIZE then 0 else s.rpos + 1 }) := by
  simp only [cons_getc, kbd_intr, serial_intr, Bool.false_eq_true, ite_false,
    cons_intr, List.foldl_nil, ne_eq, h, not_false_eq_true, if_pos]

theorem popList_succ (s : ConsState) (n : Nat) :
    popList s (n + 1) =
      (cons_getc false [] [] s).1 :: popList (cons_getc false [] [] s).2 n := rfl

/-- With equal cursors every pop reports `-1`. -/
theorem popList_stuck (n : Nat) :
    ∀ s : ConsState, s.rpos = s.wpos → popList s n = List.replicate n (-1) := by
  induction n with
  | zero => intro s _; rfl
  | succ n ih =>
    intro s h
    rw [popList_succ, cons_getc_quiet_empty s h, List.replicate_succ]
    exact congrArg _ (ih s h)

/-! ## The queue abstraction lemmas -/

/-- Pushing a nonzero value into a state representing `q` (with room
for one more byte) yields a state representing `q ++ [c mod 256]`. -/
theorem cons_intr_step_repr (s : ConsState) (q : List Nat) (c : Nat)
    (h : ConsRepr s q) (hc : c ≠ 0) (hlen : q.length + 1 < 512) :
    ConsRepr (cons_intr_step s c) (q ++ [c % 256]) := by
  obtain ⟨hr, hw, hq, heq, hbuf⟩ := h
  unfold cons_intr_step
  rw [if_neg hc]
  refine ⟨hr, ?_, ?_, ?_, ?_⟩
  · show (if s.wpos + 1 = CONSBUFSIZE then 0 else s.wpos + 1) < 512
    unfold CONSBUFSIZE; split <;> omega
  · simpa using hlen
  · show (if s.wpos + 1 = CONSBUFSIZE then 0 else s.wpos + 1)
      = (s.rpos + (q ++ [c % 256]).length) % 512
    rw [List.length_append, List.length_singleton]
    unfold CONSBUFSIZE
    split <;> omega
  · intro i hi
    rw [List.length_append, List.length_singleton] at hi
    show some (if (s.rpos + i) % 512 = s.wpos then c % 256
               else s.buf ((s.rpos + i) % 512)) = (q ++ [c % 256])[i]?
    rcases Nat.lt_or_ge i q.length with hilt | hige
    · rw [if_neg (by omega), List.getElem?_append_left hilt]
      exact hbuf i hilt
    · have hieq : i = q.length := by omega
      subst hieq
      rw [if_pos (by omega), List.getElem?_append_right (le_refl _)]
      simp

/-- Popping from a state representing `c :: q` returns `c` and leaves
a state representing `q`. -/
theorem cons_getc_repr (s : ConsState) (c : Nat) (q : List Nat)
    (h : ConsRepr s (c :: q)) :
    (cons_getc false [] [] s).1 = Int.ofNat c ∧
    ConsRepr (cons_getc false [] [] s).2 q := by
  obtain ⟨hr, hw, hq, heq, hbuf⟩ := h
  rw [List.length_cons] at hq heq
  have hne : s.rpos ≠ s.wpos := by omega
  have hval : s.buf s.rpos = c := by
    have h0 := hbuf 0 (by simp)
    rw [List.getElem?_cons_zero] at h0
    have hidx : (s.rpos + 0) % 512 = s.rpos := by omega
    rw [hidx] at h0
    exact Option.some.injEq _ _ |>.mp h0
  rw [cons_getc_quiet_pop s hne]
  refine ⟨by rw [hval], ?_, hw, by omega, ?_, ?_⟩
  · show (if s.rpos + 1 = CONSBUFSIZE then 0 else s.rpos + 1) < 512
    unfold CONSBUFSIZE; split <;> omega
  · show s.wpos = ((if s.rpos + 1 = CONSBUFSIZE then 0 else s.rpos + 1)
      + q.length) % 512
    unfold CONSBUFSIZE; split <;> omega
  · intro i hi
    have hnext := hbuf (i + 1) (by rw [List.length_cons]; omega)
    rw [List.getElem?_cons_succ] at hnext
    show some (s.buf (((if s.rpos + 1 = CONSBUFSIZE then 0 else s.rpos + 1)
      + i) % 512)) = q[i]?
    have hidx : ((if s.rpos + 1 = CONSBUFSIZE then 0 else s.rpos + 1)
        + i) % 512 = (s.rpos + (i + 1)) % 512 := by
      unfold CONSBUFSIZE; split <;> omega
    rw [hidx]
    exact hnext

/-- From a state representing `q`, at least `q.length` pops succeed in
order; any further pops report `-1`. -/
theorem popList_repr (q : List Nat) :
    ∀ (s : ConsState) (n : Nat), ConsRepr s q → q.length ≤ n →
    popList s n = q.map Int.ofNat ++ List.replicate (n - q.length) (-1) := by
  induction q with
  | nil =>
    intro s n h _
    have hempty : s.rpos = s.wpos := by
      obtain ⟨hr, _, _, heq, _⟩ := h
      simp at heq
      omega
    rw [popList_stuck n s hempty]
    simp
  | cons c q ih =>
    intro s n h hn
    rw [List.length_cons] at hn
    obtain ⟨m, rfl⟩ : ∃ m, n = m + 1 := ⟨n - 1, by omega⟩
    obtain ⟨hval, hrest⟩ := cons_getc_repr s c q h
    rw [popList_succ, hval, ih _ m hrest (by omega)]
    simp only [List.map_cons, List.cons_append, List.length_cons,
      Nat.succ_sub_succ]

/-- Draining a list of bytes through `cons_intr` appends the nonzero
values (truncated to bytes) to the represented queue, as long as
everything fits strictly below the capacity. -/
theorem cons_intr_repr (l : List Nat) :
    ∀ (s : ConsState) (q : List Nat), ConsRepr s q →
    q.length + (l.filter (fun c => c != 0)).length < 512 →
    ConsRepr (cons_intr s l)
      (q ++ (l.filter (fun c => c != 0)).map (fun c => c % 256)) := by
  induction l with
  | nil => intro s q h _; simpa using h
  | cons c l ih =>
    intro s q h hlen
    by_cases hc : c = 0
    · subst hc
      rw [cons_intr_cons]
      have hstep : cons_intr_step s 0 = s := rfl
      have hfilt : (0 :: l).filter (fun x => x != 0)
          = l.filter (fun x => x != 0) := by simp
      rw [hstep, hfilt]
      rw [hfilt] at hlen
      exact ih s q h hlen
    · have hfilt : (c :: l).filter (fun x => x != 0)
          = c :: l.filter (fun x => x != 0) := by simp [hc]
      rw [cons_intr_cons, hfilt]
      rw [hfilt, List.length_cons] at hlen
      have hpush := cons_intr_step_repr s q c h hc (by omega)
      have hrec := ih (cons_intr_step s c) (q ++ [c % 256]) hpush
        (by simp only [List.length_append, List.length_singleton]; omega)
      simpa [List.append_assoc] using hrec

/-- The zero-initialised buffer represents the empty queue. -/
theorem cons0_repr : ConsRepr cons0 [] := by
  refine ⟨by decide, by decide, by decide, by decide, ?_⟩
  intro i hi
  simp at hi

/-- After 513 nonzero pushes from empty, the write cursor has lapped
the read cursor: only the final byte is readable; every later pop
reports `-1`. -/
theorem ring_overflow_513 (L : List Nat) (h1 : L.length = 513)
    (h2 : ∀ c ∈ L, c ≠ 0) :
    popList (cons_intr cons0 L) 512 =
      Int.ofNat ((L.getLast?.getD 0) % 256) :: List.replicate 511 (-1) := by
  rcases List.eq_nil_or_concat L with rfl | ⟨l1, c, rfl⟩
  · simp at h1
  · rw [List.concat_eq_append] at h1 h2 ⊢
    have hl1 : l1.length = 512 := by
      rw [List.length_append, List.length_singleton] at h1; omega
    have hc : c ≠ 0 := h2 c (by simp)
    have hall : ∀ x ∈ l1, x ≠ 0 := fun x hx => h2 x (by simp [hx])
    have hr1 : (cons_intr cons0 l1).rpos = 0 := cons_intr_rpos l1 cons0
    have hw1 : (cons_intr cons0 l1).wpos = 0 := by
      rw [cons_intr_wpos l1 cons0 (by decide) hall, hl1]
      decide
    have hrepr1 : ConsRepr (cons_intr cons0 l1) [] := by
      refine ⟨by rw [hr1]; omega, by rw [hw1]; omega, by decide,
        by rw [hw1, hr1]; decide, ?_⟩
      intro i hi
      simp at hi
    have hrepr2 := cons_intr_repr [c] (cons_intr cons0 l1) [] hrepr1
      (by simp [hc])
    rw [cons_intr_append]
    have hres := popList_repr [c % 256] _ 512 (by simpa [hc] using hrepr2)
      (by simp)
    rw [hres, List.getLast?_concat]
    simp

/-! ## Invariant lemmas (no zero byte in the unread region) -/

theorem goodState_cons0 : GoodState cons0 := by
  refine ⟨by decide, by decide, ?_⟩
  intro i hi hrange
  revert hrange
  show (i + 512 - cons0.rpos) % 512 < (cons0.wpos + 512 - cons0.rpos) % 512 → _
  have h1 : cons0.rpos = 0 := rfl
  have h2 : cons0.wpos = 0 := rfl
  rw [h1, h2]
  omega

theorem goodState_step (s : ConsState) (c : Nat) (h : GoodState s)
    (hc : c < 256) : GoodState (cons_intr_step s c) := by
  unfold cons_intr_step
  by_cases hc0 : c = 0
  · rw [if_pos hc0]; exact h
  · rw [if_neg hc0]
    obtain ⟨hr, hw, hbuf⟩ := h
    refine ⟨hr, ?_, ?_⟩
    · show (if s.wpos + 1 = CONSBUFSIZE then 0 else s.wpos + 1) < 512
      unfold CONSBUFSIZE; split <;> omega
    · intro i hi hrange
      show (if i = s.wpos then c % 256 else s.buf i) ≠ 0
      by_cases hiw : i = s.wpos
      · rw [if_pos hiw]
        omega
      · rw [if_neg hiw]
        apply hbuf i hi
        revert hrange
        show (i + 512 - s.rpos) % 512 <
            ((if s.wpos + 1 = CONSBUFSIZE then 0 else s.wpos + 1) + 512
              - s.rpos) % 512 →
          (i + 512 - s.rpos) % 512 < (s.wpos + 512 - s.rpos) % 512
        unfold CONSBUFSIZE
        split <;> omega

theorem goodState_intr (l : List Nat) :
    ∀ s : ConsState, GoodState s → (∀ c ∈ l, c < 256) →
    GoodState (cons_intr s l) := by
  induction l with
  | nil => intro s h _; exact h
  | cons c l ih =>
    intro s h hc
    rw [cons_intr_cons]
    exact ih _ (goodState_step s c h (hc c (List.mem_cons_self c l)))
      (fun x hx => hc x (List.mem_cons_of_mem c hx))

theorem goodState_getc (s : ConsState) (h : GoodState s) :
    GoodState (cons_getc false [] [] s).2 := by
  by_cases hrw : s.rpos = s.wpos
  · rw [cons_getc_quiet_empty s hrw]; exact h
  · rw [cons_getc_quiet_pop s hrw]
    obtain ⟨hr, hw, hbuf⟩ := h
    refine ⟨?_, hw, ?_⟩
    · show (if s.rpos + 1 = CONSBUFSIZE then 0 else s.rpos + 1) < 512
      unfold CONSBUFSIZE; split <;> omega
    · intro i hi hrange
      show s.buf i ≠ 0
      apply hbuf i hi
      revert hrange
      show (i + 512 - (if s.rpos + 1 = CONSBUFSIZE then 0 else s.rpos + 1))
            % 512 <
          (s.wpos + 512 - (if s.rpos + 1 = CONSBUFSIZE then 0
            else s.rpos + 1)) % 512 →
        (i + 512 - s.rpos) % 512 < (s.wpos + 512 - s.rpos) % 512
      unfold CONSBUFSIZE
      split <;> omega

theorem goodState_runOps (ops : List ConsOp) :
    ∀ s : ConsState, GoodState s → opsOK ops = true →
    GoodState (runOps s ops) := by
  induction ops with
  | nil => intro s h _; exact h
  | cons op rest ih =>
    intro s h hok
    cases op with
    | intr l =>
      rw [opsOK] at hok
      rw [Bool.and_eq_true] at hok
      refine ih _ (goodState_intr l s h ?_) hok.2
      intro c hc
      have := List.all_eq_true.mp hok.1 c hc
      exact of_decide_eq_true this
    | getc =>
      rw [opsOK] at hok
      exact ih _ (goodState_getc s h) hok

end PotatOS

namespace PotatOS

set_option maxRecDepth 8000
set_option maxHeartbeats 3200000

/-! ## Claim C1 — overwrite policy on 513 pushes -/

/-- C1, counterexample: pushing the 513 distinct values `1..513` into
the empty buffer via `cons_intr` and popping 512 times via `cons_getc`
does not return values `2..513`: the wrapped write cursor equals
`rpos + 1`, so only the final byte is readable (first pop yields
`513 mod 256 = 1`, every later pop yields `-1`). -/
theorem c1_overflow_cx :
    ¬ (popList (cons_intr cons0 ((List.range 513).map (fun i => i + 1))) 512
        = ((((List.range 513).map (fun i => i + 1)).drop 1).map Int.ofNat)) := by
  intro h
  have h2 : ∀ c ∈ (List.range 513).map (fun i => i + 1), c ≠ 0 := by
    intro c hc
    rw [List.mem_map] at hc
    obtain ⟨i, _, rfl⟩ := hc
    omega
  have hlen : ((List.range 513).map (fun i => i + 1)).length = 513 := by simp
  rw [ring_overflow_513 _ hlen h2] at h
  have h1 : (Int.ofNat ((((List.range 513).map (fun i => i + 1)).getLast?.getD 0)
        % 256) :: List.replicate 511 (-1))[1]?
      = ((((List.range 513).map (fun i => i + 1)).drop 1).map Int.ofNat)[1]? :=
    congrArg (fun l => l[1]?) h
  rw [List.getElem?_cons_succ, List.getElem?_replicate,
      List.getElem?_map, List.getElem?_drop, List.getElem?_map,
      List.getElem?_range (by omega : 1 + 1 < 513)] at h1
  simp at h1

/-- C1 (amended): after 513 nonzero pushes into the empty ring buffer
via `cons_intr` with no intervening pop, the write cursor has lapped
the read cursor, so exactly one byte is readable: the first `cons_getc`
returns the low byte of the 513th pushed value and the remaining 511
pops return `-1`. -/
theorem c1_overflow (L : List Nat) (h1 : L.length = 513)
    (h2 : ∀ c ∈ L, c ≠ 0) :
    popList (cons_intr cons0 L) 512 =
      Int.ofNat ((L.getLast?.getD 0) % 256) :: List.replicate 511 (-1) :=
  ring_overflow_513 L h1 h2

/-- C1, witness: the amended claim evaluated on the concrete input of
512 ones followed by `99`. -/
theorem c1_overflow_w :
    popList (cons_intr cons0 (List.replicate 512 1 ++ [99])) 512 =
      Int.ofNat (((List.replicate 512 1 ++ [99] : List Nat).getLast?.getD 0)
        % 256) :: List.replicate 511 (-1) :=
  c1_overflow _ (by simp) (by
    intro c hc
    rw [List.mem_append] at hc
    rcases hc with hc | hc
    · rw [List.eq_of_mem_replicate hc]; omega
    · rw [List.mem_singleton] at hc; omega)

/-! ## Claim C2 — `getchar` on an empty console -/

/-- C2 (code bug): with the buffer empty and both sources reporting no
data, `getchar` returns immediately with `-1` for every loop budget:
its loop only skips the value `0`, which `cons_getc` never uses — the
empty sentinel is `-1` — so it does not busy-wait for a byte as the
spec claims. -/
theorem c2_getchar_bug :
    (∀ fuel : Nat,
      getchar (fun _ => ([], [])) false 0 (fuel + 1) cons0
        = some (-1, cons0)) ∧
    (cons_getc false [] [] cons0).1 = -1 :=
  ⟨fun _ => rfl, rfl⟩

/-! ## Claim C3 — Ctrl+Alt+Del reset side effect -/

/-- C3, counterexample: with Ctrl, Alt and the pending-`0xE0` flag set
(`shift = 70`), decoding `0x53` (the Delete make code) performs the
single reset write `(0x92, 0x3)` — but the decode returns the nonzero
`KEY_DEL`, and feeding that return through `cons_intr` advances the
write cursor: a byte IS appended to the ring buffer, contradicting the
claim's frame condition. -/
theorem c3_reset_cx :
    (kbd_proc_data 70 0x53).writes = [(0x92, 0x3)] ∧
    (kbd_proc_data 70 0x53).ret = KEY_DEL ∧
    KEY_DEL ≠ 0 ∧
    (cons_intr cons0 [(kbd_proc_data 70 0x53).ret]).wpos = 1 ∧
    cons0.wpos = 0 := by decide

/-- C3 (amended): with Ctrl and Alt both set and the extended prefix
pending, decoding the Delete scancode performs exactly one write of
`0x3` to port `0x92`, and the decode also returns `KEY_DEL`, which
`cons_intr` stores into the ring buffer at the write cursor (the code
reaches `return c` after the reset `outb`). -/
theorem c3_reset (shift : Nat) (h1 : shift < 128)
    (h2 : shift &&& (CTL ||| ALT) = CTL ||| ALT) (h3 : shift &&& E0ESC ≠ 0)
    (s : ConsState) :
    (kbd_proc_data shift 0x53).writes = [(0x92, 0x3)] ∧
    (kbd_proc_data shift 0x53).ret = KEY_DEL ∧
    (cons_intr s [(kbd_proc_data shift 0x53).ret]).buf s.wpos = KEY_DEL := by
  have key : ∀ sh, sh < 128 → sh &&& (CTL ||| ALT) = CTL ||| ALT →
      sh &&& E0ESC ≠ 0 →
      (kbd_proc_data sh 0x53).writes = [(0x92, 0x3)] ∧
      (kbd_proc_data sh 0x53).ret = KEY_DEL := by decide
  obtain ⟨hw, hr⟩ := key shift h1 h2 h3
  refine ⟨hw, hr, ?_⟩
  rw [hr]
  simp [cons_intr, cons_intr_step, KEY_DEL]

/-- C3, witness: the amended claim at `shift = 70` and the initial
buffer state. -/
theorem c3_reset_w :
    (kbd_proc_data 70 0x53).writes = [(0x92, 0x3)] ∧
    (kbd_proc_data 70 0x53).ret = KEY_DEL ∧
    (cons_intr cons0 [(kbd_proc_data 70 0x53).ret]).buf cons0.wpos = KEY_DEL :=
  c3_reset 70 (by decide) (by decide) (by decide) cons0

/-! ## Claim C4 — absent serial device -/

/-- C4, counterexample: `serial_putc` is not guarded by
`serial_exists`; with every status read returning the absent-device
value `0xFF` it still performs a port write (the data byte to
`COM1+COM_TX`), so transmit is not a no-op as the claim states. -/
theorem c4_serial_cx :
    (serial_putc (fun _ => 0xFF) 65).2 = [(0x3F8, 65)] ∧
    (serial_putc (fun _ => 0xFF) 65).2 ≠ [] := by decide

/-- C4 (amended): if the line-status register reads `0xFF` during
`serial_init` then `serial_exists` is latched `false` and `serial_intr`
pushes nothing into the ring buffer; `serial_putc` never blocks — with
all-ones status reads the ready bit appears set, so it spins zero
iterations — but it is not a no-op: it still writes the byte to the
transmit data port. -/
theorem c4_serial_absent :
    (serial_init 0xFF).1 = false ∧
    (∀ (l : List Nat) (s : ConsState), serial_intr false l s = s) ∧
    (∀ c : Nat, serial_putc (fun _ => 0xFF) c = (0, [(0x3F8, c % 256)])) ∧
    (∀ (status : Nat → Nat) (c : Nat), (serial_putc status c).1 ≤ 12800) :=
  ⟨rfl, fun _ _ => rfl, fun _ => rfl,
   fun status _ => spinWait_le status 0x20 12800 0⟩

/-! ## Claim C5 — FIFO order -/

/-- C5, counterexample: a sequence of exactly 512 pushes (allowed by
the claim's "at most 512") makes the write cursor wrap back onto the
read cursor, so the buffer reads as empty and every pop returns `-1`
instead of the pushed bytes. -/
theorem c5_fifo_cx :
    ¬ (popList (cons_intr cons0 (List.replicate 512 7))
          (List.replicate 512 (7:Nat)).length
        = (List.replicate 512 (7:Nat)).map Int.ofNat) := by
  intro h
  have hr : (cons_intr cons0 (List.replicate 512 7)).rpos = 0 :=
    cons_intr_rpos _ cons0
  have hw : (cons_intr cons0 (List.replicate 512 7)).wpos = 0 := by
    rw [cons_intr_wpos _ cons0 (by decide)
        (fun c hc => by rw [List.eq_of_mem_replicate hc]; decide)]
    decide
  rw [List.length_replicate, popList_stuck 512 _ (hr.trans hw.symm),
      List.map_replicate] at h
  have h0 : (List.replicate 512 (-1:Int))[0]?
      = (List.replicate 512 (Int.ofNat 7))[0]? :=
    congrArg (fun l => l[0]?) h
  rw [List.getElem?_replicate, List.getElem?_replicate] at h0
  simp only [if_pos (by omega : (0:Nat) < 512), Option.some.injEq] at h0
  exact absurd h0 (by decide)

/-- C5 (amended): for every sequence of at most 511 nonzero bytes
pushed into the initially empty ring buffer via `cons_intr`, popping
sequentially via `cons_getc` returns exactly those bytes in push order
(first-in first-out, none lost, none duplicated). -/
theorem c5_fifo (l : List Nat) (h1 : l.length ≤ 511)
    (h2 : ∀ c ∈ l, c ≠ 0 ∧ c < 256) :
    popList (cons_intr cons0 l) l.length = l.map Int.ofNat := by
  have hfilt : l.filter (fun c => c != 0) = l :=
    List.filter_eq_self.mpr (fun a ha => by simpa using (h2 a ha).1)
  have hmap : l.map (fun c => c % 256) = l := by
    have hcongr := List.map_congr_left (l := l)
      (f := fun c => c % 256) (g := id)
      (fun x hx => Nat.mod_eq_of_lt (h2 x hx).2)
    rw [hcongr, List.map_id]
  have hrepr := cons_intr_repr l cons0 [] cons0_repr
    (by rw [hfilt, List.length_nil]; omega)
  rw [hfilt, hmap, List.nil_append] at hrepr
  have hres := popList_repr l _ l.length hrepr (le_refl _)
  simpa using hres

/-- C5, witness: FIFO order on the concrete sequence `[104, 105, 33]`. -/
theorem c5_fifo_w :
    popList (cons_intr cons0 [104, 105, 33]) ([104, 105, 33] : List Nat).length
      = ([104, 105, 33] : List Nat).map Int.ofNat :=
  c5_fifo [104, 105, 33] (by decide) (by decide)

/-! ## Claim C6 — extended (`0xE0`-prefixed) scancodes -/

/-- C6: from any modifier state below `2^7` with the pending-extended
flag clear (and Ctrl/Shift clear so the unshifted table is active),
feeding the decoder `0xE0` returns no character (`0`) and sets
`E0ESC`; then feeding an arrow make code (`0x48`, `0x4B`, `0x4D` or
`0x50`) clears `E0ESC` and returns the extended-table entry
`normalmap (sc ||| 0x80)` — the arrow key code — which differs from
the base-table character `normalmap sc`. -/
theorem c6_extended (shift sc : Nat) (h1 : shift < 128)
    (h2 : shift &&& E0ESC = 0 ∧ shift &&& (CTL ||| SHIFT) = 0)
    (h4 : sc = 0x48 ∨ sc = 0x4B ∨ sc = 0x4D ∨ sc = 0x50) :
    (kbd_proc_data shift 0xE0).ret = 0 ∧
    (kbd_proc_data shift 0xE0).shift = shift ||| E0ESC ∧
    (shift ||| E0ESC) &&& E0ESC ≠ 0 ∧
    (kbd_proc_data (shift ||| E0ESC) sc).ret = normalmap (sc ||| 0x80) ∧
    (kbd_proc_data (shift ||| E0ESC) sc).shift &&& E0ESC = 0 ∧
    normalmap (sc ||| 0x80) ≠ normalmap sc := by
  rcases h4 with rfl | rfl | rfl | rfl <;> (revert shift; decide)

/-- C6, witness: the neutral state and the Up-arrow make code. -/
theorem c6_extended_w :
    (kbd_proc_data 0 0xE0).ret = 0 ∧
    (kbd_proc_data 0 0xE0).shift = 0 ||| E0ESC ∧
    (0 ||| E0ESC) &&& E0ESC ≠ 0 ∧
    (kbd_proc_data (0 ||| E0ESC) 0x48).ret = normalmap (0x48 ||| 0x80) ∧
    (kbd_proc_data (0 ||| E0ESC) 0x48).shift &&& E0ESC = 0 ∧
    normalmap (0x48 ||| 0x80) ≠ normalmap 0x48 :=
  c6_extended 0 0x48 (by decide) (by decide) (Or.inl rfl)

/-! ## Claim C7 — bounded transmit spins -/

/-- C7: for every status-register behaviour, `serial_putc` and
`lpt_putc` terminate: each spins at most 12800 delay iterations, and
each then writes the data byte to its data port exactly once (the
parallel routine additionally pulses the control port). -/
theorem c7_putc_bounded (status : Nat → Nat) (c : Nat) :
    (serial_putc status c).1 ≤ 12800 ∧
    (serial_putc status c).2 = [(0x3F8, c % 256)] ∧
    (lpt_putc status c).1 ≤ 12800 ∧
    (lpt_putc status c).2 = [(0x378, c % 256), (0x37A, 13), (0x37A, 8)] :=
  ⟨spinWait_le status 0x20 12800 0, rfl,
   spinWait_le status 0x80 12800 0, rfl⟩

/-! ## Claim C8 — no zero byte in the buffer -/

/-- C8: a produced value `0` is skipped by `cons_intr` (the state,
buffer and write cursor are exactly those of the remaining drain); the
decoder returns `0` for every high-bit (key-release) data byte; and
for every sequence of drains of byte values and pops starting from the
zero-initialised buffer, every byte in the unread region between
`rpos` and `wpos` is nonzero. -/
theorem c8_no_zero_byte :
    (∀ (s : ConsState) (l : List Nat), cons_intr s (0 :: l) = cons_intr s l) ∧
    (∀ shift data : Nat, data &&& 0x80 ≠ 0 →
      (kbd_proc_data shift data).ret = 0) ∧
    (∀ ops : List ConsOp, opsOK ops = true → GoodState (runOps cons0 ops)) := by
  refine ⟨fun s l => rfl, ?_, ?_⟩
  · intro shift data h
    by_cases hd : data = 0xE0
    · simp [kbd_proc_data, hd]
    · simp [kbd_proc_data, hd, h]
  · intro ops hok
    exact goodState_runOps ops cons0 goodState_cons0 hok

/-- C8, witness: the invariant holds after a drain (including a
skipped zero) followed by a pop. -/
theorem c8_no_zero_byte_w :
    GoodState (runOps cons0 [ConsOp.intr [104, 0, 200], ConsOp.getc]) :=
  c8_no_zero_byte.2.2 [ConsOp.intr [104, 0, 200], ConsOp.getc] (by decide)

/-! ## Claim C9 — display probe restores memory -/

/-- C9: if the probe cell reads back the sentinel `0xA55A`, `cga_init`
writes the originally read word back as its final display-memory
store, so the cell's final contents equal its initial contents, and
the colour window is selected; if the read-back fails, the only store
is the probe pattern itself (no restore), the monochrome window is
selected, and no store touches the monochrome cell. -/
theorem c9_cga_probe (was readback curHi curLo : Nat) :
    (readback = 0xA55A →
      (cga_init was readback curHi curLo).memWrites
          = [(KERNBASE + CGA_BUFF, 0xA55A), (KERNBASE + CGA_BUFF, was)] ∧
      lastWriteTo (KERNBASE + CGA_BUFF) was
          (cga_init was readback curHi curLo).memWrites = was ∧
      (cga_init was readback curHi curLo).crt_buf = KERNBASE + CGA_BUFF) ∧
    (readback ≠ 0xA55A →
      (cga_init was readback curHi curLo).memWrites
          = [(KERNBASE + CGA_BUFF, 0xA55A)] ∧
      (cga_init was readback curHi curLo).crt_buf = KERNBASE + MONO_BUFF ∧
      ∀ w ∈ (cga_init was readback curHi curLo).memWrites,
        w.1 ≠ KERNBASE + MONO_BUFF) := by
  constructor
  · intro h
    subst h
    refine ⟨?_, ?_, ?_⟩ <;>
      simp [cga_init, lastWriteTo, KERNBASE, CGA_BUFF]
  · intro h
    refine ⟨?_, ?_, ?_⟩ <;>
      simp [cga_init, h, KERNBASE, CGA_BUFF, MONO_BUFF]

/-- C9, witness: both probe outcomes at concrete inputs (`was = 7`,
read-back `0xA55A` respectively `0`). -/
theorem c9_cga_probe_w :
    (lastWriteTo (KERNBASE + CGA_BUFF) 7 (cga_init 7 0xA55A 0 5).memWrites = 7 ∧
     (cga_init 7 0xA55A 0 5).crt_buf = KERNBASE + CGA_BUFF) ∧
    ((cga_init 7 0 0 5).memWrites = [(KERNBASE + CGA_BUFF, 0xA55A)] ∧
     (cga_init 7 0 0 5).crt_buf = KERNBASE + MONO_BUFF) :=
  ⟨⟨((c9_cga_probe 7 0xA55A 0 5).1 rfl).2.1,
    ((c9_cga_probe 7 0xA55A 0 5).1 rfl).2.2⟩,
   ⟨((c9_cga_probe 7 0 0 5).2 (by decide)).1,
    ((c9_cga_probe 7 0 0 5).2 (by decide)).2.1⟩⟩

/-! ## Claim C10 — Ctrl wins over Shift -/

/-- C10: `charcode` maps index 3 (Ctrl and Shift both set) to the same
table as index 2 (Ctrl only), namely `ctlmap`, and consequently for
every press scancode decoded while both Ctrl and Shift modifier bits
are set the returned character equals the decode with the Shift bit
cleared — the shifted table is never consulted. -/
theorem c10_ctrl_over_shift (shift : Nat) (h1 : shift < 128) (data : Nat)
    (h2 : data < 128) (h3 : shift &&& (CTL ||| SHIFT) = CTL ||| SHIFT) :
    charcode 3 = charcode 2 ∧ charcode 3 = ctlmap ∧
    (kbd_proc_data shift data).ret
      = (kbd_proc_data (shift ^^^ SHIFT) data).ret := by
  refine ⟨rfl, rfl, ?_⟩
  revert shift data
  decide

/-- C10, witness: Ctrl+Shift+`a` decodes to the same byte as Ctrl-only
(`C('A') = 1`). -/
theorem c10_ctrl_over_shift_w :
    charcode 3 = charcode 2 ∧ charcode 3 = ctlmap ∧
    (kbd_proc_data 3 0x1E).ret = (kbd_proc_data (3 ^^^ SHIFT) 0x1E).ret :=
  c10_ctrl_over_shift 3 (by decide) 0x1E (by decide) (by decide)

end PotatOS
